import Mathlib

/-!
Verification of the LAPUP weather-data QC scripts (`LAPUP_1min_qc.py`,
`LAPUP_min2hourly_qc.py`) against their natural-language specification.

Modelling conventions:
* a channel value is `Option ℚ`; `none` stands for NaN / a missing value,
  and comparisons against a missing value are `false`, as in pandas;
* an observation (one row of the dataframe) is a function `Chan → Option ℚ`;
* timestamps are natural numbers counting seconds;
* the wind transforms, which the scripts compute with floating-point
  trigonometry, are modelled over the real numbers.
-/

namespace LapupQC

/-- The named data channels of the 1-min file (header
`time, T, phi, ws, wd, wg, precip, pres, bat`). -/
inductive Chan where
  | T | phi | ws | wd | wg | precip | pres | bat
  deriving DecidableEq, Fintype, Repr

/-- One row of the dataframe: each channel is either a rational value or
missing (`none`, the model of NaN). -/
abbrev Obs := Chan → Option ℚ

/-- The all-missing row inserted by reindexing. -/
def missingObs : Obs := fun _ => none

/-- `x < c` on a possibly missing value; a missing value compares `false`,
as NaN does in pandas. -/
def ltOpt (x : Option ℚ) (c : ℚ) : Bool :=
  match x with
  | some v => decide (v < c)
  | none => false

/-- `x > c` on a possibly missing value; a missing value compares `false`. -/
def gtOpt (x : Option ℚ) (c : ℚ) : Bool :=
  match x with
  | some v => decide (c < v)
  | none => false

/-- A parameter dictionary of the script: channel name and plausible
inclusive range `[lo, hi]` (the source's `min`/`max` keys). -/
structure ParamSpec where
  chan : Chan
  lo : ℚ
  hi : ℚ
  deriving DecidableEq, Repr

/-- `temp = {'name': 'T', 'min': -2.0, 'max': 41.0}`. -/
def temp : ParamSpec := ⟨Chan.T, -2, 41⟩

/-- `rh = {'name': 'phi', 'min': 5.0, 'max': 100.0}`. -/
def rh : ParamSpec := ⟨Chan.phi, 5, 100⟩

/-- `precip = {'name': 'precip', 'min': 0.0, 'max': 40.0}`. -/
def precip : ParamSpec := ⟨Chan.precip, 0, 40⟩

/-- `press = {'name': 'pres', 'min': 970.0, 'max': 1030.0}`. -/
def press : ParamSpec := ⟨Chan.pres, 970, 1030⟩

/-- `batt = {'name': 'bat', 'min': 8.5, 'max': 15.0}`. -/
def batt : ParamSpec := ⟨Chan.bat, 17/2, 15⟩

/-- `wspeed = {'name': 'ws', 'min': 0.0, 'max': 75.0}`. -/
def wspeed : ParamSpec := ⟨Chan.ws, 0, 75⟩

/-- `wgust = {'name': 'wg', 'min': 0.0, 'max': 75.0}`. -/
def wgust : ParamSpec := ⟨Chan.wg, 0, 75⟩

/-- `wdir = {'name': 'wd', 'min': 0.0, 'max': 360.0}`. -/
def wdir : ParamSpec := ⟨Chan.wd, 0, 360⟩

/-- The parameter list of the outlier-replacement loop
(`for parameter in [temp, rh, precip, press, wspeed, wgust, wdir]`). -/
def validatedParams : List ParamSpec :=
  [temp, rh, precip, press, wspeed, wgust, wdir]

/-- The parameter list of the out-of-range logging loop
(`for parameter in [temp, rh, precip, press, batt, wspeed, wgust]`). -/
def loggedParams : List ParamSpec :=
  [temp, rh, precip, press, batt, wspeed, wgust]

/-- Overwrite one channel of a row. -/
def setChan (c : Chan) (v : Option ℚ) (o : Obs) : Obs :=
  fun c' => if c' = c then v else o c'

/-- `df.loc[df.bat < 9., name] = NaN`, restricted to one row. -/
def batStep (p : ParamSpec) (o : Obs) : Obs :=
  if ltOpt (o Chan.bat) 9 then setChan p.chan none o else o

/-- `df.loc[df[name] < min, name] = NaN`, restricted to one row. -/
def loStep (p : ParamSpec) (o : Obs) : Obs :=
  if ltOpt (o p.chan) p.lo then setChan p.chan none o else o

/-- `df.loc[df[name] > max, name] = NaN`, restricted to one row. -/
def hiStep (p : ParamSpec) (o : Obs) : Obs :=
  if gtOpt (o p.chan) p.hi then setChan p.chan none o else o

/-- One iteration of the outlier-replacement loop, restricted to one row:
the battery gate, then the lower-bound check, then the upper-bound check. -/
def applyParam (p : ParamSpec) (o : Obs) : Obs :=
  hiStep p (loStep p (batStep p o))

/-- The outlier-replacement loop (source lines 130-133): for each parameter
of `validatedParams`, null the channel wherever battery voltage is below 9 V
and wherever the value falls strictly outside the plausible range. -/
def replaceOutliers (rows : List Obs) : List Obs :=
  validatedParams.foldl (fun rs p => rs.map (applyParam p)) rows

/-- Folding the per-parameter passes over the rows is the same as running all
parameters row by row. -/
theorem foldl_map_comm (ps : List ParamSpec) (rows : List Obs) :
    ps.foldl (fun rs p => rs.map (applyParam p)) rows
      = rows.map (fun o => ps.foldl (fun x p => applyParam p x) o) := by
  induction ps generalizing rows with
  | nil => simp
  | cons q qs ih => simp [ih, List.map_map, Function.comp]

/-- Running every parameter of a list over one row. -/
def applyAll (ps : List ParamSpec) (o : Obs) : Obs :=
  ps.foldl (fun x p => applyParam p x) o

theorem replaceOutliers_eq_map (rows : List Obs) :
    replaceOutliers rows = rows.map (applyAll validatedParams) := by
  simpa [applyAll] using foldl_map_comm validatedParams rows

theorem setChan_apply (c : Chan) (v : Option ℚ) (o : Obs) (c' : Chan) :
    setChan c v o c' = if c' = c then v else o c' := rfl

theorem setChan_self (c : Chan) (o : Obs) : setChan c (o c) o = o := by
  funext c'
  by_cases h : c' = c <;> simp [setChan, h]

theorem batStep_apply_ne (p : ParamSpec) (o : Obs) (c : Chan)
    (hc : c ≠ p.chan) : batStep p o c = o c := by
  unfold batStep
  split <;> simp [setChan, hc]

theorem loStep_apply_ne (p : ParamSpec) (o : Obs) (c : Chan)
    (hc : c ≠ p.chan) : loStep p o c = o c := by
  unfold loStep
  split <;> simp [setChan, hc]

theorem hiStep_apply_ne (p : ParamSpec) (o : Obs) (c : Chan)
    (hc : c ≠ p.chan) : hiStep p o c = o c := by
  unfold hiStep
  split <;> simp [setChan, hc]

/-- `applyParam p` touches only the channel `p.chan`. -/
theorem applyParam_apply_ne (p : ParamSpec) (o : Obs) (c : Chan)
    (hc : c ≠ p.chan) : applyParam p o c = o c := by
  unfold applyParam
  rw [hiStep_apply_ne p _ c hc, loStep_apply_ne p _ c hc,
    batStep_apply_ne p _ c hc]

theorem batStep_apply_self (p : ParamSpec) (o : Obs) :
    batStep p o p.chan = if ltOpt (o Chan.bat) 9 then none else o p.chan := by
  unfold batStep
  split <;> simp [setChan]

theorem loStep_apply_self (p : ParamSpec) (o : Obs) :
    loStep p o p.chan = if ltOpt (o p.chan) p.lo then none else o p.chan := by
  unfold loStep
  split <;> simp [setChan]

theorem hiStep_apply_self (p : ParamSpec) (o : Obs) :
    hiStep p o p.chan = if gtOpt (o p.chan) p.hi then none else o p.chan := by
  unfold hiStep
  split <;> simp [setChan]

/-- A row is clean for parameter `p` when the battery gate has fired if it
had to and any surviving value lies inside `[lo, hi]`. -/
def cleanFor (p : ParamSpec) (o : Obs) : Prop :=
  (ltOpt (o Chan.bat) 9 = true → o p.chan = none) ∧
  (∀ x : ℚ, o p.chan = some x → p.lo ≤ x ∧ x ≤ p.hi)

theorem applyParam_bat (p : ParamSpec) (hp : p.chan ≠ Chan.bat) (o : Obs) :
    applyParam p o Chan.bat = o Chan.bat :=
  applyParam_apply_ne p o Chan.bat (fun h => hp h.symm)

/-- What the three replacement lines leave in the parameter's own channel. -/
theorem applyParam_apply_self (p : ParamSpec) (o : Obs) :
    applyParam p o p.chan =
      if ltOpt (o Chan.bat) 9 then none
      else
        match o p.chan with
        | none => none
        | some x => if x < p.lo then none else if p.hi < x then none
            else some x := by
  unfold applyParam
  rw [hiStep_apply_self, loStep_apply_self, batStep_apply_self]
  by_cases h1 : ltOpt (o Chan.bat) 9
  · simp only [if_pos h1]
    simp [ltOpt, gtOpt]
  · simp only [if_neg h1]
    rcases ho : o p.chan with _ | x
    · simp [ltOpt, gtOpt]
    · by_cases hlo : x < p.lo
      · simp [ltOpt, gtOpt, hlo]
      · by_cases hhi : p.hi < x
        · simp [ltOpt, gtOpt, hlo, hhi]
        · simp [ltOpt, gtOpt, hlo, hhi]

/-- After its own pass, a row is clean for that parameter. -/
theorem applyParam_cleanFor (p : ParamSpec) (hp : p.chan ≠ Chan.bat)
    (o : Obs) : cleanFor p (applyParam p o) := by
  have hbat : applyParam p o Chan.bat = o Chan.bat := applyParam_bat p hp o
  have hself := applyParam_apply_self p o
  constructor
  · intro hb
    rw [hbat] at hb
    rw [hself, if_pos hb]
  · intro x hx
    rw [hself] at hx
    by_cases h1 : ltOpt (o Chan.bat) 9
    · simp [h1] at hx
    · rw [if_neg h1] at hx
      rcases ho : o p.chan with _ | y
      · rw [ho] at hx
        simp at hx
      · rw [ho] at hx
        by_cases hlo : y < p.lo
        · simp [hlo] at hx
        · by_cases hhi : p.hi < y
          · simp [hlo, hhi] at hx
          · simp [hlo, hhi] at hx
            subst hx
            exact ⟨le_of_not_lt hlo, le_of_not_lt hhi⟩

/-- A pass of a parameter with a different channel preserves cleanliness. -/
theorem applyParam_preserves_cleanFor (p q : ParamSpec)
    (hpq : q.chan ≠ p.chan) (hq : q.chan ≠ Chan.bat) (o : Obs)
    (h : cleanFor p o) : cleanFor p (applyParam q o) := by
  have h1 : applyParam q o p.chan = o p.chan :=
    applyParam_apply_ne q o p.chan (fun hc => hpq hc.symm)
  have h2 : applyParam q o Chan.bat = o Chan.bat := applyParam_bat q hq o
  exact ⟨fun hb => by rw [h1]; exact h.1 (by rwa [h2] at hb),
    fun x hx => h.2 x (by rwa [h1] at hx)⟩

theorem batStep_of_cleanFor (p : ParamSpec) (o : Obs)
    (h : ltOpt (o Chan.bat) 9 = true → o p.chan = none) :
    batStep p o = o := by
  unfold batStep
  by_cases h1 : ltOpt (o Chan.bat) 9
  · rw [if_pos h1, ← h h1, setChan_self]
  · rw [if_neg h1]

theorem loStep_of_inRange (p : ParamSpec) (o : Obs)
    (h : ∀ x : ℚ, o p.chan = some x → p.lo ≤ x ∧ x ≤ p.hi) :
    loStep p o = o := by
  unfold loStep
  rcases ho : o p.chan with _ | x
  · simp [ltOpt, ho]
  · simp [ltOpt, ho, not_lt_of_le (h x ho).1]

theorem hiStep_of_inRange (p : ParamSpec) (o : Obs)
    (h : ∀ x : ℚ, o p.chan = some x → p.lo ≤ x ∧ x ≤ p.hi) :
    hiStep p o = o := by
  unfold hiStep
  rcases ho : o p.chan with _ | x
  · simp [gtOpt, ho]
  · simp [gtOpt, ho, not_lt_of_le (h x ho).2]

/-- A pass over an already clean row changes nothing. -/
theorem applyParam_of_cleanFor (p : ParamSpec) (o : Obs)
    (h : cleanFor p o) : applyParam p o = o := by
  unfold applyParam
  rw [batStep_of_cleanFor p o h.1, loStep_of_inRange p o h.2,
    hiStep_of_inRange p o h.2]

/-- Cleanliness for `p` survives the passes of parameters with other
channels, none of them the battery channel. -/
theorem applyAll_preserves_cleanFor :
    ∀ (ps : List ParamSpec) (p : ParamSpec) (o : Obs),
      (∀ q ∈ ps, q.chan ≠ p.chan ∧ q.chan ≠ Chan.bat) →
      cleanFor p o → cleanFor p (applyAll ps o)
  | [], _, o, _, h => by simpa [applyAll] using h
  | q :: qs, p, o, hps, h => by
    have hq := hps q (by simp)
    have h1 := applyParam_preserves_cleanFor p q hq.1 hq.2 o h
    have h2 := applyAll_preserves_cleanFor qs p (applyParam q o)
      (fun r hr => hps r (by simp [hr])) h1
    simpa [applyAll] using h2

/-- After the whole replacement loop every listed parameter is clean,
provided no listed parameter writes the battery channel and no two
parameters share a channel. -/
theorem applyAll_cleanFor :
    ∀ (ps : List ParamSpec), (∀ q ∈ ps, q.chan ≠ Chan.bat) →
      ps.Pairwise (fun a b => a.chan ≠ b.chan) →
      ∀ p ∈ ps, ∀ o : Obs, cleanFor p (applyAll ps o)
  | [], _, _, p, hp, _ => absurd hp (by simp)
  | q :: qs, hbat, hpair, p, hp, o => by
    have hpair' := List.pairwise_cons.mp hpair
    rcases List.mem_cons.mp hp with rfl | hp'
    · have hstart := applyParam_cleanFor p (hbat p (by simp)) o
      have := applyAll_preserves_cleanFor qs p (applyParam p o)
        (fun r hr => ⟨(hpair'.1 r hr).symm, hbat r (by simp [hr])⟩) hstart
      simpa [applyAll] using this
    · have := applyAll_cleanFor qs (fun r hr => hbat r (by simp [hr]))
        hpair'.2 p hp' (applyParam q o)
      simpa [applyAll] using this

/-- The replacement loop is a no-op on a row that is already clean for
every listed parameter. -/
theorem applyAll_of_cleanFor :
    ∀ (ps : List ParamSpec) (o : Obs), (∀ p ∈ ps, cleanFor p o) →
      applyAll ps o = o
  | [], o, _ => rfl
  | q :: qs, o, h => by
    have h1 : applyParam q o = o := applyParam_of_cleanFor q o (h q (by simp))
    have h2 := applyAll_of_cleanFor qs o (fun p hp => h p (by simp [hp]))
    calc applyAll (q :: qs) o = applyAll qs (applyParam q o) := rfl
      _ = applyAll qs o := by rw [h1]
      _ = o := h2

theorem validatedParams_not_bat : ∀ q ∈ validatedParams, q.chan ≠ Chan.bat := by
  decide

theorem validatedParams_pairwise :
    validatedParams.Pairwise (fun a b => a.chan ≠ b.chan) := by
  decide

/-- One full pass of the replacement loop over a single row is idempotent. -/
theorem applyAll_validated_idem (o : Obs) :
    applyAll validatedParams (applyAll validatedParams o)
      = applyAll validatedParams o :=
  applyAll_of_cleanFor validatedParams (applyAll validatedParams o)
    (fun p hp => applyAll_cleanFor validatedParams validatedParams_not_bat
      validatedParams_pairwise p hp o)

/-- C9: running the RangeValidator (battery gate plus range nulling over
the full parameter set, source lines 130-133) twice produces the same
series as running it once. -/
theorem rangeValidator_idempotent (rows : List Obs) :
    replaceOutliers (replaceOutliers rows) = replaceOutliers rows := by
  simp only [replaceOutliers_eq_map, List.map_map]
  have h : applyAll validatedParams ∘ applyAll validatedParams
      = applyAll validatedParams := funext applyAll_validated_idem
  rw [h]

/-- C1: after the RangeValidator runs, for every channel of the validated
set with bounds `[min, max]`, no surviving (non-missing) value of that
channel lies strictly below `min` or strictly above `max`, and every value
of a gated channel in a row whose battery voltage is below 9 V is missing. -/
theorem rangeValidator_bounds (rows : List Obs) (p : ParamSpec)
    (hp : p ∈ validatedParams) (r : Obs) (hr : r ∈ replaceOutliers rows) :
    (∀ x : ℚ, r p.chan = some x → p.lo ≤ x ∧ x ≤ p.hi) ∧
    (∀ b : ℚ, r Chan.bat = some b → b < 9 → r p.chan = none) := by
  rw [replaceOutliers_eq_map] at hr
  rcases List.mem_map.mp hr with ⟨o, _, rfl⟩
  have hclean := applyAll_cleanFor validatedParams validatedParams_not_bat
    validatedParams_pairwise p hp o
  refine ⟨hclean.2, fun b hb hlt => hclean.1 ?_⟩
  simp [ltOpt, hb, hlt]

/-- A raw row with low battery voltage (8 V) and an out-of-range
temperature (50 °C). -/
def obsLowBat : Obs := fun c =>
  if c = Chan.bat then some 8 else if c = Chan.T then some 50 else none

/-- What the replacement loop leaves of `obsLowBat`: every gated channel
nulled, the battery voltage untouched. -/
def obsLowBatQC : Obs := fun c => if c = Chan.bat then some 8 else none

/-- Witness for C1 at the concrete input `[obsLowBat]` and the
temperature parameter. -/
theorem rangeValidator_bounds_witness :
    temp ∈ validatedParams ∧ obsLowBatQC ∈ replaceOutliers [obsLowBat] ∧
      ((∀ x : ℚ, obsLowBatQC temp.chan = some x → temp.lo ≤ x ∧ x ≤ temp.hi) ∧
        (∀ b : ℚ, obsLowBatQC Chan.bat = some b → b < 9 →
          obsLowBatQC temp.chan = none)) :=
  ⟨by decide, by decide,
    rangeValidator_bounds [obsLowBat] temp (by decide) obsLowBatQC (by decide)⟩

/-- `df[~df.index.duplicated(keep='first')]`: keep the first occurrence of
each timestamp, in the original order. -/
def dedupFirst : List (ℕ × Obs) → List (ℕ × Obs)
  | [] => []
  | r :: rs => r :: (dedupFirst rs).filter (fun x => x.1 != r.1)

/-- `pd.date_range(first, last, freq=step)`: the timestamps
`first, first + step, ...` up to and including `last`; empty when
`last < first`. -/
def dateRange (first lastT step : ℕ) : List ℕ :=
  if lastT < first then [] else List.range' first ((lastT - first) / step + 1) step

/-- The row `df.reindex` places at grid timestamp `t`: the original row
when `t` is an index of the (deduplicated) input, an all-missing row
otherwise. -/
def reindexObs (d : List (ℕ × Obs)) (t : ℕ) : Obs :=
  match d.find? (fun r => r.1 == t) with
  | some r => r.2
  | none => missingObs

/-- Source lines 61-68: deduplicate, take `first = df.iloc[0].name` and
`last = df.iloc[-1].name` (the first and last rows, positionally), build
the 1-minute grid between them and reindex onto it.  `none` models the
`IndexError` that `df.iloc[0]` raises on an empty frame. -/
def regularize (rows : List (ℕ × Obs)) : Option (List (ℕ × Obs)) :=
  match (dedupFirst rows).head?, (dedupFirst rows).getLast? with
  | some hd, some lst =>
    some ((dateRange hd.1 lst.1 60).map
      (fun t => (t, reindexObs (dedupFirst rows) t)))
  | _, _ => none

/-- `find?` ignores a filter that only discards elements the predicate
rejects anyway. -/
theorem find?_filter_of_imp (l : List (ℕ × Obs)) (p q : (ℕ × Obs) → Bool)
    (h : ∀ x, p x = true → q x = true) :
    (l.filter q).find? p = l.find? p := by
  induction l with
  | nil => rfl
  | cons a l ih =>
    cases hq : q a with
    | true =>
      rw [List.filter_cons, if_pos hq]
      cases hp : p a with
      | true => simp only [List.find?_cons, hp]
      | false =>
        simp only [List.find?_cons, hp]
        exact ih
    | false =>
      have hp : p a = false := by
        cases hpa : p a
        · rfl
        · rw [h a hpa] at hq
          cases hq
      rw [List.filter_cons, if_neg (by simp [hq])]
      calc (l.filter q).find? p = l.find? p := ih
        _ = (a :: l).find? p := by simp only [List.find?_cons, hp]

/-- `find?` by timestamp, unfolded one row at a time. -/
theorem find?_cons_ts (a : ℕ × Obs) (l : List (ℕ × Obs)) (t : ℕ) :
    (a :: l).find? (fun r => r.1 == t)
      = if a.1 = t then some a else l.find? (fun r => r.1 == t) := by
  by_cases ha : a.1 = t
  · rw [if_pos ha]
    exact List.find?_cons_of_pos _ (by simpa using ha)
  · rw [if_neg ha]
    exact List.find?_cons_of_neg _ (by simpa using ha)

/-- Deduplication does not change which row `find?` returns for a given
timestamp: the first occurrence survives. -/
theorem dedupFirst_find? (rows : List (ℕ × Obs)) (t : ℕ) :
    (dedupFirst rows).find? (fun r => r.1 == t)
      = rows.find? (fun r => r.1 == t) := by
  induction rows with
  | nil => rfl
  | cons a l ih =>
    rw [dedupFirst, find?_cons_ts, find?_cons_ts]
    by_cases ha : a.1 = t
    · rw [if_pos ha, if_pos ha]
    · rw [if_neg ha, if_neg ha, find?_filter_of_imp _ _ _ ?_, ih]
      intro x hx
      have hxt : x.1 = t := by simpa using hx
      simp only [bne_iff_ne, ne_eq, hxt]
      exact fun h => ha h.symm

/-- Deduplication commutes with filtering by a timestamp predicate. -/
theorem dedupFirst_filter_ts (f : ℕ → Bool) :
    ∀ l : List (ℕ × Obs),
      dedupFirst (l.filter (fun x => f x.1))
        = (dedupFirst l).filter (fun x => f x.1)
  | [] => rfl
  | a :: l => by
    cases hf : f a.1 with
    | true =>
      rw [List.filter_cons, if_pos hf, dedupFirst, dedupFirst,
        dedupFirst_filter_ts f l, List.filter_cons, if_pos hf,
        List.filter_filter, List.filter_filter]
      congr 1
      apply List.filter_congr
      intro x _
      rw [Bool.and_comm]
    | false =>
      rw [List.filter_cons, if_neg (by simp [hf]), dedupFirst_filter_ts f l,
        dedupFirst, List.filter_cons, if_neg (by simp [hf]),
        List.filter_filter]
      apply List.filter_congr
      intro x _
      cases hfx : f x.1 with
      | true =>
        have hne : (x.1 != a.1) = true := by
          simp only [bne_iff_ne, ne_eq]
          intro he
          rw [he, hf] at hfx
          cases hfx
        simp [hne]
      | false => simp

/-- Deduplication is idempotent. -/
theorem dedupFirst_idem : ∀ l : List (ℕ × Obs),
    dedupFirst (dedupFirst l) = dedupFirst l
  | [] => rfl
  | a :: l => by
    rw [dedupFirst, dedupFirst, dedupFirst_filter_ts (fun n => n != a.1),
      dedupFirst_idem l, List.filter_filter]
    congr 1
    apply List.filter_congr
    intro x _
    rw [Bool.and_self]

/-- Dropping the later duplicates before regularizing changes nothing. -/
theorem regularize_dedupFirst (rows : List (ℕ × Obs)) :
    regularize (dedupFirst rows) = regularize rows := by
  unfold regularize
  rw [dedupFirst_idem]

theorem dateRange_length (first lastT step : ℕ) (h : first ≤ lastT) :
    (dateRange first lastT step).length = (lastT - first) / step + 1 := by
  rw [dateRange, if_neg (not_lt.mpr h), List.length_range']

theorem mem_dateRange (first lastT step t : ℕ)
    (ht : t ∈ dateRange first lastT step) : ∃ i, t = first + step * i := by
  rw [dateRange] at ht
  split at ht
  · cases ht
  · rcases List.mem_range'.mp ht with ⟨i, _, hi⟩
    exact ⟨i, hi⟩

theorem dateRange_pairwise (first lastT step : ℕ) (hs : 0 < step) :
    (dateRange first lastT step).Pairwise (· < ·) := by
  rw [dateRange]
  split
  · exact List.Pairwise.nil
  · exact List.pairwise_lt_range' first _ step hs

/-- Unpacking a successful regularization run. -/
theorem regularize_eq_some (rows out : List (ℕ × Obs))
    (h : regularize rows = some out) :
    ∃ hd lst, (dedupFirst rows).head? = some hd ∧
      (dedupFirst rows).getLast? = some lst ∧
      out = (dateRange hd.1 lst.1 60).map
        (fun t => (t, reindexObs (dedupFirst rows) t)) := by
  unfold regularize at h
  cases hh : (dedupFirst rows).head? with
  | none =>
    rw [hh] at h
    exact Option.noConfusion h
  | some hd =>
    cases hl : (dedupFirst rows).getLast? with
    | none =>
      rw [hh, hl] at h
      exact Option.noConfusion h
    | some lst =>
      rw [hh, hl] at h
      exact ⟨hd, lst, rfl, rfl, (Option.some.inj h).symm⟩

theorem map_fst_grid {β : Type} (g : ℕ → β) (l : List ℕ) :
    (l.map (fun t => (t, g t))).map Prod.fst = l := by
  have h : (Prod.fst ∘ fun t => (t, g t)) = id := funext fun t => rfl
  rw [List.map_map, h, List.map_id]

/-- C3 (amended): for a nonempty input whose first deduplicated row is no
later than its last one (in particular for any time-ordered input), the
regularized series has length `(last - first) / 60 + 1` with strictly
increasing, duplicate-free timestamps; `first` and `last` are the
timestamps of the positionally first and last deduplicated rows, which the
source takes via `iloc[0]` and `iloc[-1]` (not the minimum and maximum). -/
theorem timegrid_output_grid (rows : List (ℕ × Obs)) (hd lst : ℕ × Obs)
    (h1 : (dedupFirst rows).head? = some hd)
    (h2 : (dedupFirst rows).getLast? = some lst)
    (h3 : hd.1 ≤ lst.1) :
    ∃ out, regularize rows = some out ∧
      out.length = (lst.1 - hd.1) / 60 + 1 ∧
      (out.map Prod.fst).Pairwise (· < ·) ∧
      (out.map Prod.fst).Nodup := by
  have hreg : regularize rows = some ((dateRange hd.1 lst.1 60).map
      (fun t => (t, reindexObs (dedupFirst rows) t))) := by
    unfold regularize
    rw [h1, h2]
  have hfst := map_fst_grid (reindexObs (dedupFirst rows)) (dateRange hd.1 lst.1 60)
  have hpair := dateRange_pairwise hd.1 lst.1 60 (by norm_num)
  refine ⟨_, hreg, ?_, ?_, ?_⟩
  · rw [List.length_map, dateRange_length _ _ _ h3]
  · rw [hfst]
    exact hpair
  · rw [hfst]
    exact hpair.imp Nat.ne_of_lt

/-- A time-ordered two-row input, two minutes apart. -/
def rowsSorted : List (ℕ × Obs) := [(0, missingObs), (120, missingObs)]

/-- Witness for C3 (amended) at the concrete input `rowsSorted`. -/
theorem timegrid_output_grid_witness :
    (dedupFirst rowsSorted).head? = some (0, missingObs) ∧
    (dedupFirst rowsSorted).getLast? = some (120, missingObs) ∧
    (0 : ℕ) ≤ 120 ∧
    (∃ out, regularize rowsSorted = some out ∧
      out.length = (120 - 0) / 60 + 1 ∧
      (out.map Prod.fst).Pairwise (· < ·) ∧
      (out.map Prod.fst).Nodup) :=
  ⟨rfl, rfl, by norm_num,
    timegrid_output_grid rowsSorted (0, missingObs) (120, missingObs)
      rfl rfl (by norm_num)⟩

/-- An input whose rows are not in time order: the positionally first row
carries the latest timestamp. -/
def rowsUnsorted : List (ℕ × Obs) := [(120, missingObs), (0, missingObs)]

/-- C3 counterexample: on `rowsUnsorted` the earliest and latest
deduplicated timestamps are 0 and 120, so the claim predicts
`(120 - 0) / 60 + 1 = 3` output rows; the source instead anchors the grid
at `iloc[0] = 120` and ends it at `iloc[-1] = 0`, and `pd.date_range`
with start after end is empty, so the regularized output has 0 rows. -/
theorem timegrid_output_grid_cex :
    (rowsUnsorted.map Prod.fst).min? = some 0 ∧
    (rowsUnsorted.map Prod.fst).max? = some 120 ∧
    regularize rowsUnsorted = some [] ∧
    (120 - 0) / 60 + 1 = 3 ∧
    ([] : List (ℕ × Obs)).length ≠ 3 := by
  exact ⟨rfl, rfl, rfl, by norm_num, by simp⟩

/-- The ordered pair of QC logs the script derives from the regularized
series before any value is nulled: the timestamps whose temperature is
missing (`nans`, source line 72) and the out-of-range listing written to
the log file; empty when regularization fails. -/
def qcLogTimes (rows : List (ℕ × Obs)) : List ℕ :=
  match regularize rows with
  | some out => (out.filter (fun r => r.2 Chan.T == none)).map Prod.fst
  | none => []

/-- C8 (amended): when a timestamp of the input survives onto the output
grid, the output row there is the first-encountered input row with that
timestamp, never a later duplicate; and regularizing after deleting the
later duplicates gives the identical result, so the discarded duplicates
leave no trace in the series the QC findings are computed from. -/
theorem timegrid_keep_first (rows : List (ℕ × Obs)) (t : ℕ)
    (r₀ : ℕ × Obs) (out : List (ℕ × Obs))
    (hf : rows.find? (fun r => r.1 == t) = some r₀)
    (hreg : regularize rows = some out)
    (hmem : t ∈ out.map Prod.fst) :
    (t, r₀.2) ∈ out ∧ (∀ o' : Obs, (t, o') ∈ out → o' = r₀.2) ∧
      qcLogTimes (dedupFirst rows) = qcLogTimes rows ∧
      regularize (dedupFirst rows) = regularize rows := by
  obtain ⟨hd, lst, hh, hl, rfl⟩ := regularize_eq_some rows out hreg
  rw [map_fst_grid] at hmem
  have hre : reindexObs (dedupFirst rows) t = r₀.2 := by
    unfold reindexObs
    rw [dedupFirst_find?, hf]
  have hlog : qcLogTimes (dedupFirst rows) = qcLogTimes rows := by
    unfold qcLogTimes
    rw [regularize_dedupFirst]
  refine ⟨?_, ?_, hlog, regularize_dedupFirst rows⟩
  · have hmm : (t, reindexObs (dedupFirst rows) t) ∈
        (dateRange hd.1 lst.1 60).map
          (fun u => (u, reindexObs (dedupFirst rows) u)) :=
      List.mem_map_of_mem _ hmem
    rwa [hre] at hmm
  · intro o' ho'
    rcases List.mem_map.mp ho' with ⟨u, _, he⟩
    have hu : u = t := congrArg Prod.fst he
    have hv : reindexObs (dedupFirst rows) u = o' := congrArg Prod.snd he
    rw [hu, hre] at hv
    exact hv.symm

/-- A row whose every channel reads 1. -/
def obsOne : Obs := fun _ => some 1

/-- A row whose every channel reads 2. -/
def obsTwo : Obs := fun _ => some 2

/-- An input with two observations sharing the on-grid timestamp 0. -/
def rowsDup : List (ℕ × Obs) := [(0, obsOne), (0, obsTwo), (120, missingObs)]

/-- What regularization makes of `rowsDup`. -/
def outDup : List (ℕ × Obs) := [(0, obsOne), (60, missingObs), (120, missingObs)]

/-- Witness for C8 (amended) at the concrete input `rowsDup`: minute 0 keeps
the first-seen row `obsOne`. -/
theorem timegrid_keep_first_witness :
    rowsDup.find? (fun r => r.1 == 0) = some (0, obsOne) ∧
    regularize rowsDup = some outDup ∧
    0 ∈ outDup.map Prod.fst ∧
    ((0, obsOne) ∈ outDup ∧ (∀ o' : Obs, (0, o') ∈ outDup → o' = obsOne) ∧
      qcLogTimes (dedupFirst rowsDup) = qcLogTimes rowsDup ∧
      regularize (dedupFirst rowsDup) = regularize rowsDup) :=
  ⟨rfl, rfl, by decide,
    timegrid_keep_first rowsDup 0 (0, obsOne) outDup rfl rfl (by decide)⟩

/-- An input with two observations sharing the off-grid timestamp 30
(the grid is anchored at 0 with a 60 s step). -/
def rowsDupOff : List (ℕ × Obs) :=
  [(0, missingObs), (30, obsOne), (30, obsTwo), (120, missingObs)]

/-- C8 counterexample: `rowsDupOff` contains two observations sharing
timestamp 30, yet the regularized output's timestamps are exactly
0, 60, 120 — the first-encountered observation's values at timestamp 30
do not appear in the output at that timestamp at all, because 30 is not
on the 1-minute grid. -/
theorem timegrid_keep_first_cex :
    (rowsDupOff.map Prod.fst).count 30 = 2 ∧
    ((regularize rowsDupOff).getD []).map Prod.fst = [0, 60, 120] := by
  exact ⟨by decide, rfl⟩

/-- A timestamp lies on the 1-minute grid anchored at `first`. -/
def onGrid (first t : ℕ) : Prop := first ≤ t ∧ (t - first) % 60 = 0

/-- C10: an input observation whose timestamp is off the 1-minute grid
anchored at the first deduplicated timestamp is silently dropped: its
timestamp appears nowhere in the regularized output, and every output row
is either all-missing or a copy of the first input row carrying exactly
that grid timestamp — off-grid rows supply no value to any output row. -/
theorem timegrid_offgrid_dropped (rows : List (ℕ × Obs)) (t : ℕ) (o : Obs)
    (out : List (ℕ × Obs)) (hd : ℕ × Obs)
    (hh : (dedupFirst rows).head? = some hd)
    (hreg : regularize rows = some out)
    (hrow : (t, o) ∈ rows)
    (hoff : ¬ onGrid hd.1 t) :
    t ∉ out.map Prod.fst ∧
      ∀ t' o', (t', o') ∈ out → o' = missingObs ∨
        rows.find? (fun r => r.1 == t') = some (t', o') := by
  obtain ⟨hd', lst, hh', hl, rfl⟩ := regularize_eq_some rows out hreg
  have hdd : hd' = hd := Option.some.inj (hh' ▸ hh)
  subst hdd
  rw [map_fst_grid]
  constructor
  · intro hmem
    obtain ⟨i, rfl⟩ := mem_dateRange _ _ _ _ hmem
    exact hoff ⟨Nat.le_add_right _ _, by omega⟩
  · intro t' o' ho'
    rcases List.mem_map.mp ho' with ⟨u, _, he⟩
    have hu : u = t' := congrArg Prod.fst he
    have hv : reindexObs (dedupFirst rows) u = o' := congrArg Prod.snd he
    subst hu
    unfold reindexObs at hv
    rw [dedupFirst_find?] at hv
    cases hfind : rows.find? (fun r => r.1 == u) with
    | none =>
      rw [hfind] at hv
      exact Or.inl hv.symm
    | some r =>
      rw [hfind] at hv
      have h2 : r.2 = o' := hv
      have hr1 : r.1 = u := by simpa using List.find?_some hfind
      have hru : r = (u, o') := by
        rcases r with ⟨r1, r2⟩
        have h1' : r1 = u := hr1
        have h2' : r2 = o' := h2
        subst h1'
        subst h2'
        rfl
      exact Or.inr (by rw [hru])

/-- A row whose every channel reads 5. -/
def obsFive : Obs := fun _ => some 5

/-- An input with an off-grid observation at t = 90 s (grid 0, 60, 120). -/
def rowsOffgrid : List (ℕ × Obs) :=
  [(0, missingObs), (90, obsFive), (120, missingObs)]

/-- What regularization makes of `rowsOffgrid`: the 90 s row is gone. -/
def outOffgrid : List (ℕ × Obs) :=
  [(0, missingObs), (60, missingObs), (120, missingObs)]

/-- Witness for C10 at the concrete input `rowsOffgrid`. -/
theorem timegrid_offgrid_dropped_witness :
    (dedupFirst rowsOffgrid).head? = some (0, missingObs) ∧
    regularize rowsOffgrid = some outOffgrid ∧
    (90, obsFive) ∈ rowsOffgrid ∧
    ¬ onGrid 0 90 ∧
    (90 ∉ outOffgrid.map Prod.fst ∧
      ∀ t' o', (t', o') ∈ outOffgrid → o' = missingObs ∨
        rowsOffgrid.find? (fun r => r.1 == t') = some (t', o')) :=
  ⟨rfl, rfl, by decide, by norm_num [onGrid],
    timegrid_offgrid_dropped rowsOffgrid 90 obsFive outOffgrid
      (0, missingObs) rfl rfl (by decide) (by norm_num [onGrid])⟩

/-- The log entries one row contributes for one parameter: the two `if`
bodies of source lines 101-104 (a strictly-below-min hit, then a
strictly-above-max hit; a missing value triggers neither). -/
def logEntries (p : ParamSpec) (i : ℕ) (v : Option ℚ) : List (Chan × ℕ × ℚ) :=
  match v with
  | none => []
  | some x =>
    (if x < p.lo then [(p.chan, i, x)] else []) ++
    (if p.hi < x then [(p.chan, i, x)] else [])

/-- One parameter's pass of the out-of-range logging loop: every row
position of the still-unmodified frame is scanned. -/
def paramLog (p : ParamSpec) (rows : List Obs) : List (Chan × ℕ × ℚ) :=
  (List.range rows.length).flatMap
    (fun i => logEntries p i ((rows.getD i missingObs) p.chan))

/-- The out-of-range logging loop (source lines 97-104): parameters in the
order `[temp, rh, precip, press, batt, wspeed, wgust]`; note it runs
before the replacement loop, on the raw regularized values. -/
def rangeLog (rows : List Obs) : List (Chan × ℕ × ℚ) :=
  loggedParams.flatMap (fun p => paramLog p rows)

theorem mem_logEntries (p : ParamSpec) (i : ℕ) (v : Option ℚ) (c : Chan)
    (j : ℕ) (x : ℚ) :
    (c, j, x) ∈ logEntries p i v ↔
      c = p.chan ∧ j = i ∧ v = some x ∧ (x < p.lo ∨ p.hi < x) := by
  cases v with
  | none => simp [logEntries]
  | some y =>
    simp only [logEntries, List.mem_append, Option.some.injEq]
    constructor
    · intro h
      rcases h with h | h
      · split at h
        next hlo =>
          have he : c = p.chan ∧ j = i ∧ x = y := by
            simpa [Prod.ext_iff] using List.mem_singleton.mp h
          obtain ⟨rfl, rfl, rfl⟩ := he
          exact ⟨rfl, rfl, rfl, Or.inl hlo⟩
        next => cases h
      · split at h
        next hhi =>
          have he : c = p.chan ∧ j = i ∧ x = y := by
            simpa [Prod.ext_iff] using List.mem_singleton.mp h
          obtain ⟨rfl, rfl, rfl⟩ := he
          exact ⟨rfl, rfl, rfl, Or.inr hhi⟩
        next => cases h
    · rintro ⟨rfl, rfl, hyx, hcond⟩
      cases hyx
      rcases hcond with hc | hc
      · refine Or.inl ?_
        rw [if_pos hc]
        exact List.mem_singleton.mpr rfl
      · refine Or.inr ?_
        rw [if_pos hc]
        exact List.mem_singleton.mpr rfl

/-- C2 (amended): a finding `(c, i, x)` is logged exactly when `c` is a
channel of the logging loop's list (temperature, humidity, precipitation,
pressure, battery, wind speed, wind gust — wind direction is absent), the
raw value of `c` at row `i` is `x`, and `x` lies strictly outside that
channel's `[min, max]`; the battery voltage at row `i` plays no role, and
the values examined are the raw pre-nulling ones. -/
theorem rangeLog_mem_iff (rows : List Obs) (c : Chan) (i : ℕ) (x : ℚ) :
    (c, i, x) ∈ rangeLog rows ↔
      ∃ p, p ∈ loggedParams ∧ p.chan = c ∧ i < rows.length ∧
        (rows.getD i missingObs) c = some x ∧ (x < p.lo ∨ p.hi < x) := by
  unfold rangeLog paramLog
  rw [List.mem_flatMap]
  constructor
  · rintro ⟨p, hp, hmem⟩
    rw [List.mem_flatMap] at hmem
    rcases hmem with ⟨j, hj, hx⟩
    rw [List.mem_range] at hj
    rw [mem_logEntries] at hx
    obtain ⟨rfl, rfl, hv, hcond⟩ := hx
    exact ⟨p, hp, rfl, hj, hv, hcond⟩
  · rintro ⟨p, hp, rfl, hi, hv, hcond⟩
    refine ⟨p, hp, ?_⟩
    rw [List.mem_flatMap]
    exact ⟨i, List.mem_range.mpr hi,
      (mem_logEntries p i _ p.chan i x).mpr ⟨rfl, rfl, hv, hcond⟩⟩

/-- Modelled from the spec (section 4.2, steps 1-3): record an OutOfRange
finding only for values that fail step 2, i.e. only where the battery gate
of step 1 (battery below 9 V) did not already claim the row, over the
designated parameter set {temperature, humidity, precipitation, pressure,
wind speed, wind gust, wind direction}. -/
def specOutOfRange (rows : List Obs) : List (Chan × ℕ × ℚ) :=
  validatedParams.flatMap (fun p =>
    (List.range rows.length).flatMap (fun i =>
      if ltOpt ((rows.getD i missingObs) Chan.bat) 9 then []
      else
        match (rows.getD i missingObs) p.chan with
        | none => []
        | some x => if x < p.lo ∨ p.hi < x then [(p.chan, i, x)] else []))

/-- A row whose only reading is a wind direction of 400 degrees, above the
vane's maximum of 360. -/
def obsWdOut : Obs := fun c => if c = Chan.wd then some 400 else none

/-- C2 counterexample.  First: in the row `obsLowBat` the battery reads
8 V (below the 9 V gate) and the temperature reads 50 °C (above max 41);
the claim says battery precedence keeps such a value out of the OutOfRange
findings, but the source's logging loop runs before, and independently of,
the battery rule and does record it.  Second: the claim's designated set
includes wind direction, but the source's logging loop omits it: an
out-of-range vane reading of 400 degrees is never recorded. -/
theorem rangeLog_battery_precedence_cex :
    ((Chan.T, 0, 50) ∈ rangeLog [obsLowBat] ∧
      (Chan.T, 0, 50) ∉ specOutOfRange [obsLowBat]) ∧
    ((Chan.wd, 0, 400) ∉ rangeLog [obsWdOut] ∧
      (Chan.wd, 0, 400) ∈ specOutOfRange [obsWdOut]) := by
  exact ⟨⟨by decide, by decide⟩, ⟨by decide, by decide⟩⟩

/-- `dropna`: the non-missing values of a channel, in time order
(`df[parameter].dropna()`). -/
def dropna (vals : List (Option ℚ)) : List ℚ := vals.filterMap id

/-- One entry of `np.gradient` at unit spacing: one-sided differences at
the two ends, the central difference `(y[i+1] - y[i-1]) / 2` inside
(meaningful for arrays of length at least 2, as numpy requires). -/
def npGradientAt (xs : List ℚ) (i : ℕ) : ℚ :=
  if i = 0 then xs.getD 1 0 - xs.getD 0 0
  else if i = xs.length - 1 then
    xs.getD (xs.length - 1) 0 - xs.getD (xs.length - 2) 0
  else (xs.getD (i + 1) 0 - xs.getD (i - 1) 0) / 2

/-- `np.gradient(df1)` over the dropna'd channel. -/
def npGradient (xs : List ℚ) : List ℚ :=
  (List.range xs.length).map (npGradientAt xs)

/-- `df1[np.gradient(df1) >= limit]` (source line 206): the positions of
the non-missing subsequence whose signed gradient meets or exceeds the
limit. -/
def gradFlags (xs : List ℚ) (limit : ℚ) : List ℕ :=
  (List.range xs.length).filter (fun i => decide (limit ≤ npGradientAt xs i))

/-- `limit = [3, 10, 20]` paired with the channels of the gradient loop
(source lines 201-207). -/
def gradientLimits : List (Chan × ℚ) :=
  [(Chan.T, 3), (Chan.phi, 10), (Chan.ws, 20)]

/-- C4 (amended): for each checked channel (temperature limit 3, humidity
10, wind speed 20) the steep-gradient listing flags exactly the positions
of the dropna'd subsequence whose signed numpy gradient is at least the
limit: a one-sided difference at either end, half the difference of the
two neighbours inside, always at unit spacing.  Neither absolute values
nor the plain differences of adjacent samples are used, and consecutive
survivors of `dropna` are treated as adjacent however far apart their
timestamps are. -/
theorem gradient_flags_iff (c : Chan) (limit : ℚ)
    (_hc : (c, limit) ∈ gradientLimits) (xs : List ℚ) (hn : 2 ≤ xs.length)
    (i : ℕ) :
    (i ∈ gradFlags xs limit ↔ i < xs.length ∧ limit ≤ npGradientAt xs i) ∧
    npGradientAt xs 0 = xs.getD 1 0 - xs.getD 0 0 ∧
    npGradientAt xs (xs.length - 1)
      = xs.getD (xs.length - 1) 0 - xs.getD (xs.length - 2) 0 ∧
    (0 < i → i < xs.length - 1 →
      npGradientAt xs i = (xs.getD (i + 1) 0 - xs.getD (i - 1) 0) / 2) := by
  refine ⟨?_, ?_, ?_, ?_⟩
  · simp [gradFlags, List.mem_filter, List.mem_range]
  · simp [npGradientAt]
  · have h1 : xs.length - 1 ≠ 0 := by omega
    simp [npGradientAt, h1]
  · intro h0 h1
    have h2 : i ≠ 0 := by omega
    have h3 : i ≠ xs.length - 1 := by omega
    simp [npGradientAt, h2, h3]

/-- Witness for C4 (amended) on the spec's scenario values [10, 15, 12]
with the temperature limit 3, at position 1. -/
theorem gradient_flags_iff_witness :
    (Chan.T, (3 : ℚ)) ∈ gradientLimits ∧
    2 ≤ ([10, 15, 12] : List ℚ).length ∧
    ((1 ∈ gradFlags [10, 15, 12] 3 ↔
        1 < ([10, 15, 12] : List ℚ).length ∧
        (3 : ℚ) ≤ npGradientAt [10, 15, 12] 1) ∧
      npGradientAt [10, 15, 12] 0
        = ([10, 15, 12] : List ℚ).getD 1 0 - ([10, 15, 12] : List ℚ).getD 0 0 ∧
      npGradientAt [10, 15, 12] (([10, 15, 12] : List ℚ).length - 1)
        = ([10, 15, 12] : List ℚ).getD (([10, 15, 12] : List ℚ).length - 1) 0
          - ([10, 15, 12] : List ℚ).getD (([10, 15, 12] : List ℚ).length - 2) 0 ∧
      (0 < 1 → 1 < ([10, 15, 12] : List ℚ).length - 1 →
        npGradientAt [10, 15, 12] 1
          = (([10, 15, 12] : List ℚ).getD 2 0
            - ([10, 15, 12] : List ℚ).getD 0 0) / 2)) :=
  ⟨by decide, by decide,
    gradient_flags_iff Chan.T 3 (by decide) [10, 15, 12] (by decide) 1⟩

/-- C4 counterexample: on the spec's own scenario [10, 15, 12] with limit
3 the adjacent pair 15 → 12 has absolute difference 3, which the claim's
"meets or exceeds" convention must flag, yet the source flags neither
position of that pair: `np.gradient` is signed (−3 at position 2, central
difference 1 at position 1) and only position 0 is flagged. -/
theorem gradient_flags_cex :
    (3 : ℚ) ≤ |(12 : ℚ) - 15| ∧
    gradFlags [10, 15, 12] 3 = [0] ∧
    1 ∉ gradFlags [10, 15, 12] 3 ∧
    2 ∉ gradFlags [10, 15, 12] 3 := by
  have h0 : npGradientAt [10, 15, 12] 0 = 5 := by norm_num [npGradientAt]
  have h1 : npGradientAt [10, 15, 12] 1 = 1 := by norm_num [npGradientAt]
  have h2 : npGradientAt [10, 15, 12] 2 = -3 := by norm_num [npGradientAt]
  have hb0 : decide ((3 : ℚ) ≤ npGradientAt [10, 15, 12] 0) = true := by
    rw [h0]
    norm_num
  have hb1 : decide ((3 : ℚ) ≤ npGradientAt [10, 15, 12] 1) = false := by
    rw [h1]
    norm_num
  have hb2 : decide ((3 : ℚ) ≤ npGradientAt [10, 15, 12] 2) = false := by
    rw [h2]
    norm_num
  have hr : List.range 3 = [0, 1, 2] := rfl
  have hflags : gradFlags [10, 15, 12] 3 = [0] := by
    simp [gradFlags, hr, List.filter_cons, hb0, hb1, hb2]
  exact ⟨by norm_num, hflags, by simp [hflags], by simp [hflags]⟩

/-- `find?` by timestamp over a grid of pairs `(t, g t)` returns the pair
at `t` whenever `t` lies on the grid. -/
theorem find?_map_grid {β : Type} (g : ℕ → β) :
    ∀ (l : List ℕ) (t : ℕ), t ∈ l →
      (l.map (fun x => (x, g x))).find? (fun p => p.1 == t) = some (t, g t)
  | [], t, ht => absurd ht (by simp)
  | a :: l', t, ht => by
    by_cases ha : a = t
    · subst ha
      rw [List.map_cons]
      exact List.find?_cons_of_pos _ (by simp)
    · rw [List.map_cons, List.find?_cons_of_neg _ (by simpa using ha)]
      refine find?_map_grid g l' t ?_
      rcases List.mem_cons.mp ht with hh | hh
      · exact absurd hh.symm ha
      · exact hh

/-- `df[col].resample('h').mean()` on one bin: pandas skips NaN, and a bin
with no numeric value at all yields NaN. -/
def meanAgg (xs : List (Option ℚ)) : Option ℚ :=
  if xs.filterMap id = [] then none
  else some ((xs.filterMap id).sum / ((xs.filterMap id).length : ℚ))

/-- `df['precip'].resample('h').sum()` on one bin: pandas (min_count = 0)
sums the numeric values and returns 0.0, never NaN, when there are none. -/
def sumAgg (xs : List (Option ℚ)) : Option ℚ :=
  some ((xs.filterMap id).sum)

/-- The hourly bin of a second-resolution timestamp. -/
def hourOf (t : ℕ) : ℕ := t / 3600

/-- The contiguous hourly bin index `resample('h')` produces: every hour
from the first to the last hour observed, inclusive. -/
def hourGrid (rows : List (ℕ × Option ℚ)) : List ℕ :=
  match rows with
  | [] => []
  | r :: rs =>
    dateRange (((r :: rs).map (fun x => hourOf x.1)).foldl min (hourOf r.1))
      (((r :: rs).map (fun x => hourOf x.1)).foldl max (hourOf r.1)) 1

/-- One channel's hourly resampling: each bin aggregates the channel
values of the rows falling in that hour. -/
def resampleHourly (agg : List (Option ℚ) → Option ℚ)
    (rows : List (ℕ × Option ℚ)) : List (ℕ × Option ℚ) :=
  (hourGrid rows).map (fun h =>
    (h, agg ((rows.filter (fun x => hourOf x.1 == h)).map Prod.snd)))

/-- C7: in every aggregation period all of whose samples are missing, the
arithmetic-mean aggregate (temperature, humidity, pressure) is missing
while the precipitation sum aggregate is 0, not missing — the missing
samples contribute zero to the sum. -/
theorem aggregator_all_missing (rows : List (ℕ × Option ℚ)) (h : ℕ)
    (hmem : h ∈ (resampleHourly meanAgg rows).map Prod.fst)
    (hall : ∀ r ∈ rows, hourOf r.1 = h → r.2 = none) :
    (resampleHourly meanAgg rows).find? (fun p => p.1 == h)
      = some (h, none) ∧
    (resampleHourly sumAgg rows).find? (fun p => p.1 == h)
      = some (h, some 0) := by
  rw [resampleHourly, map_fst_grid] at hmem
  have hvals : ∀ v ∈ (rows.filter (fun x => hourOf x.1 == h)).map Prod.snd,
      v = none := by
    intro v hv
    rcases List.mem_map.mp hv with ⟨r, hr, rfl⟩
    have hr' := List.mem_filter.mp hr
    exact hall r hr'.1 (by simpa using hr'.2)
  have hnil : ((rows.filter (fun x => hourOf x.1 == h)).map
      Prod.snd).filterMap id = [] := by
    rw [List.filterMap_eq_nil_iff]
    exact hvals
  have hmean : meanAgg ((rows.filter (fun x => hourOf x.1 == h)).map
      Prod.snd) = none := by
    rw [meanAgg, if_pos hnil]
  have hsum : sumAgg ((rows.filter (fun x => hourOf x.1 == h)).map
      Prod.snd) = some 0 := by
    rw [sumAgg, hnil]
    rfl
  constructor
  · have h2 := find?_map_grid
      (fun hh => meanAgg ((rows.filter (fun x => hourOf x.1 == hh)).map
        Prod.snd)) (hourGrid rows) h hmem
    simpa [resampleHourly, hmean] using h2
  · have h2 := find?_map_grid
      (fun hh => sumAgg ((rows.filter (fun x => hourOf x.1 == hh)).map
        Prod.snd)) (hourGrid rows) h hmem
    simpa [resampleHourly, hsum] using h2

/-- Two minutes of one hour, both missing. -/
def rowsHourMissing : List (ℕ × Option ℚ) := [(0, none), (60, none)]

/-- Witness for C7 at the concrete input `rowsHourMissing`. -/
theorem aggregator_all_missing_witness :
    0 ∈ (resampleHourly meanAgg rowsHourMissing).map Prod.fst ∧
    (∀ r ∈ rowsHourMissing, hourOf r.1 = 0 → r.2 = none) ∧
    ((resampleHourly meanAgg rowsHourMissing).find? (fun p => p.1 == 0)
        = some (0, none) ∧
      (resampleHourly sumAgg rowsHourMissing).find? (fun p => p.1 == 0)
        = some (0, some 0)) :=
  ⟨by decide, by decide,
    aggregator_all_missing rowsHourMissing 0 (by decide) (by decide)⟩

/-- The forward wind transform (source lines 156-157):
`u = -ws * sin(wd * pi/180)`, `v = -ws * cos(wd * pi/180)`. -/
noncomputable def windUV (s d : ℝ) : ℝ × ℝ :=
  (-s * Real.sin (d * Real.pi / 180), -s * Real.cos (d * Real.pi / 180))

/-- `np.round(x, 1)`: rounding to one decimal place. -/
noncomputable def roundTenth (x : ℝ) : ℝ := (round (10 * x) : ℤ) / 10

/-- `wind_direction(u, v)` (source lines 39-45): quadrant offset
`phi0 = 180 if u > 0 else 0`, then
`round(90 - 180/pi * arctan(v/u) + phi0, 1)`.  The division `v / u` is
performed unguarded; at `u = 0` it is a division by zero (on Python
scalars a `ZeroDivisionError`), modelled here as `none`. -/
noncomputable def wind_direction (u v : ℝ) : Option ℝ :=
  if u = 0 then none
  else some (roundTenth (90 - 180 / Real.pi * Real.arctan (v / u)
    + (if 0 < u then 180 else 0)))

theorem roundTenth_close (x : ℝ) : |roundTenth x - x| ≤ 1 / 20 := by
  have h : roundTenth x - x = ((round (10 * x) : ℤ) - 10 * x) / 10 := by
    rw [roundTenth]
    ring
  rw [h, abs_div]
  have h10 : |(10 : ℝ)| = 10 := by norm_num
  rw [h10, abs_sub_comm]
  have hr := abs_sub_round (10 * x)
  linarith

/-- `arctan (cos x / sin x) = pi/2 - x` strictly inside `(0, pi)`. -/
theorem arctan_cot (x : ℝ) (h0 : 0 < x) (h1 : x < Real.pi) :
    Real.arctan (Real.cos x / Real.sin x) = Real.pi / 2 - x := by
  have ht : Real.cos x / Real.sin x = Real.tan (Real.pi / 2 - x) := by
    rw [Real.tan_eq_sin_div_cos, Real.sin_pi_div_two_sub,
      Real.cos_pi_div_two_sub]
  rw [ht]
  exact Real.arctan_tan (by linarith) (by linarith)

/-- C5: for speed `s > 0` and direction `d` in `[0, 360)` whose zonal
component `u = -s sin(d pi/180)` is nonzero, decomposing with the forward
transform and reconstructing with `wind_direction` returns the direction
within 0.1 degrees (exactly `d` before the rounding to one decimal) and
the magnitude `sqrt(u^2 + v^2)` equals `s` exactly. -/
theorem wind_roundtrip (s d : ℝ) (hs : 0 < s) (hd0 : 0 ≤ d) (hd1 : d < 360)
    (hu : (windUV s d).1 ≠ 0) :
    ∃ dir, wind_direction (windUV s d).1 (windUV s d).2 = some dir ∧
      |dir - d| ≤ 1 / 10 ∧
      Real.sqrt ((windUV s d).1 ^ 2 + (windUV s d).2 ^ 2) = s := by
  have hπ := Real.pi_pos
  have hu' : -s * Real.sin (d * Real.pi / 180) ≠ 0 := hu
  have hsin : Real.sin (d * Real.pi / 180) ≠ 0 := by
    intro h0
    exact hu' (by rw [h0, mul_zero])
  have hd0' : d ≠ 0 := by
    intro h
    exact hsin (by rw [h]; simp)
  have hd180 : d ≠ 180 := by
    intro h
    apply hsin
    have he : d * Real.pi / 180 = Real.pi := by rw [h]; ring
    rw [he, Real.sin_pi]
  have hdpos : 0 < d := lt_of_le_of_ne hd0 (Ne.symm hd0')
  have hvu : (windUV s d).2 / (windUV s d).1
      = Real.cos (d * Real.pi / 180) / Real.sin (d * Real.pi / 180) := by
    show (-s * Real.cos (d * Real.pi / 180))
        / (-s * Real.sin (d * Real.pi / 180)) = _
    rw [neg_mul, neg_mul, neg_div_neg_eq]
    exact mul_div_mul_left _ _ (ne_of_gt hs)
  have hsq : Real.sqrt ((windUV s d).1 ^ 2 + (windUV s d).2 ^ 2) = s := by
    have hid : (windUV s d).1 ^ 2 + (windUV s d).2 ^ 2 = s ^ 2 := by
      show (-s * Real.sin (d * Real.pi / 180)) ^ 2
          + (-s * Real.cos (d * Real.pi / 180)) ^ 2 = s ^ 2
      have hsc := Real.sin_sq_add_cos_sq (d * Real.pi / 180)
      calc (-s * Real.sin (d * Real.pi / 180)) ^ 2
            + (-s * Real.cos (d * Real.pi / 180)) ^ 2
          = s ^ 2 * (Real.sin (d * Real.pi / 180) ^ 2
            + Real.cos (d * Real.pi / 180) ^ 2) := by ring
        _ = s ^ 2 := by rw [hsc, mul_one]
    rw [hid, Real.sqrt_sq hs.le]
  have key : (90 : ℝ) - 180 / Real.pi
      * Real.arctan ((windUV s d).2 / (windUV s d).1)
      + (if 0 < (windUV s d).1 then (180 : ℝ) else 0) = d := by
    rcases lt_or_gt_of_ne hd180 with hlt | hgt
    · -- 0 < d < 180: u < 0, phi0 = 0
      have hθ0 : 0 < d * Real.pi / 180 := by positivity
      have hθπ : d * Real.pi / 180 < Real.pi := by
        rw [div_lt_iff (by norm_num : (0 : ℝ) < 180)]
        nlinarith
      have hsinpos : 0 < Real.sin (d * Real.pi / 180) :=
        Real.sin_pos_of_pos_of_lt_pi hθ0 hθπ
      have huneg : (windUV s d).1 < 0 := by
        show -s * Real.sin (d * Real.pi / 180) < 0
        nlinarith
      rw [hvu, arctan_cot _ hθ0 hθπ, if_neg (not_lt.mpr huneg.le)]
      field_simp
      ring
    · -- 180 < d < 360: u > 0, phi0 = 180
      have hθπ : Real.pi < d * Real.pi / 180 := by
        rw [lt_div_iff (by norm_num : (0 : ℝ) < 180)]
        nlinarith
      have hθ2π : d * Real.pi / 180 < 2 * Real.pi := by
        rw [div_lt_iff (by norm_num : (0 : ℝ) < 180)]
        nlinarith
      have hsinpos : 0 < Real.sin (d * Real.pi / 180 - Real.pi) :=
        Real.sin_pos_of_pos_of_lt_pi (by linarith) (by linarith)
      have hsinneg : Real.sin (d * Real.pi / 180) < 0 := by
        have he := Real.sin_sub_pi (d * Real.pi / 180)
        linarith [he ▸ hsinpos]
      have hupos : 0 < (windUV s d).1 := by
        show 0 < -s * Real.sin (d * Real.pi / 180)
        nlinarith
      have hq : Real.cos (d * Real.pi / 180) / Real.sin (d * Real.pi / 180)
          = Real.cos (d * Real.pi / 180 - Real.pi)
            / Real.sin (d * Real.pi / 180 - Real.pi) := by
        rw [Real.cos_sub_pi, Real.sin_sub_pi, neg_div_neg_eq]
      rw [hvu, hq, arctan_cot _ (by linarith) (by linarith),
        if_pos hupos]
      field_simp
      ring
  refine ⟨roundTenth d, ?_, ?_, hsq⟩
  · rw [wind_direction, if_neg hu, key]
  · have h20 := roundTenth_close d
    linarith

/-- Witness for C5 at speed 1, direction 90 degrees. -/
theorem wind_roundtrip_witness :
    (0 : ℝ) < 1 ∧ (0 : ℝ) ≤ 90 ∧ (90 : ℝ) < 360 ∧ (windUV 1 90).1 ≠ 0 ∧
    ∃ dir, wind_direction (windUV 1 90).1 (windUV 1 90).2 = some dir ∧
      |dir - 90| ≤ 1 / 10 ∧
      Real.sqrt ((windUV 1 90).1 ^ 2 + (windUV 1 90).2 ^ 2) = 1 := by
  have h90 : (90 : ℝ) * Real.pi / 180 = Real.pi / 2 := by ring
  have h1 : (windUV 1 90).1 = -1 := by
    show (-1 : ℝ) * Real.sin (90 * Real.pi / 180) = -1
    rw [h90, Real.sin_pi_div_two, mul_one]
  have hu : (windUV 1 90).1 ≠ 0 := by
    rw [h1]
    norm_num
  exact ⟨one_pos, by norm_num, by norm_num, hu,
    wind_roundtrip 1 90 one_pos (by norm_num) (by norm_num) hu⟩

/-- C6: the inverse transform leaves `u = 0` undefined: for any `v` the
unguarded division `v / u` is a division by zero, so `wind_direction 0 v`
yields no direction; in particular the round trip breaks down at a due
wind along the meridian (`d = 0`, which makes the forward `u` component
exactly zero). -/
theorem wind_direction_u_zero :
    (∀ v : ℝ, wind_direction 0 v = none) ∧
    (∀ s : ℝ, wind_direction (windUV s 0).1 (windUV s 0).2 = none) := by
  constructor
  · intro v
    rw [wind_direction, if_pos rfl]
  · intro s
    have h : (windUV s 0).1 = 0 := by
      show -s * Real.sin (0 * Real.pi / 180) = 0
      rw [zero_mul, zero_div, Real.sin_zero, mul_zero]
    rw [h, wind_direction, if_pos rfl]
